import Mathlib

/-!
Verification of the `Dow` downloader (`downloader.py`) against its
natural-language specification.

The Python module is shallowly embedded: pure helpers become Lean
functions over `String` / `List Char`; interactions with the operating
system (disk-usage queries, directory creation, the external `yt-dlp`
process, `json.loads`) are abstracted into an explicit environment
record, and the observable side effects (directory creation, disk
checks, process spawns, file deletions) are returned as explicit
traces.  Machine floats appearing in the source (`psutil` usage
percentages) are modelled as rationals, which represent every value the
theorems evaluate exactly.
-/

namespace Dow

/-! ## Path Sanitizer (`sanitize_filename`, downloader.py lines 28-33) -/

/-- ASCII letters and digits. -/
def asciiAlnum (c : Char) : Bool :=
  ('a' ≤ c && c ≤ 'z') || ('A' ≤ c && c ≤ 'Z') || ('0' ≤ c && c ≤ '9')

/-- The keep-condition of the sanitizer's comprehension,
`c.isalnum() or c in " ._-"`, parameterized by the runtime's
`str.isalnum` character classification. -/
def keepChar (isalnum : Char → Bool) (c : Char) : Bool :=
  isalnum c || c = ' ' || c = '.' || c = '_' || c = '-'

/-- One character of `sanitize_filename`:
`c if c.isalnum() or c in " ._-" else "_"`. -/
def sanitizeChar (isalnum : Char → Bool) (c : Char) : Char :=
  if keepChar isalnum c then c else '_'

/-- `sanitize_filename` (downloader.py line 33):
`"".join(c if c.isalnum() or c in " ._-" else "_" for c in filename)`.
The `str.isalnum` classification belongs to the Python runtime and is
taken as a parameter: the sanitizer theorems hold for every
classification (in particular the true one), and concrete evaluations
instantiate it with `pyIsAlnumLatin1`, the exact restriction of
CPython's classification to the Latin-1 repertoire. -/
def sanitize_filename (isalnum : Char → Bool) (s : String) : String :=
  ⟨s.data.map (sanitizeChar isalnum)⟩

/-- CPython `str.isalnum` restricted to code points at most U+00FF,
exact on that whole range: digits `0-9`, letters `A-Z` `a-z`, the
ordinal indicators U+00AA and U+00BA, the superscripts U+00B2 U+00B3
U+00B9, the micro sign U+00B5, the vulgar fractions U+00BC-U+00BE, and
the Latin-1 letters U+00C0-U+00D6, U+00D8-U+00F6, U+00F8-U+00FF.
Characters above U+00FF (some of which, such as `Ω`, `str.isalnum`
also accepts) are outside the modelled repertoire and are never
evaluated through this function; the parametric sanitizer theorems
assert nothing about them via this instance. -/
def pyIsAlnumLatin1 (c : Char) : Bool :=
  asciiAlnum c ||
    c.toNat = 0xAA || (0xB2 ≤ c.toNat && c.toNat ≤ 0xB3) || c.toNat = 0xB5 ||
    (0xB9 ≤ c.toNat && c.toNat ≤ 0xBA) || (0xBC ≤ c.toNat && c.toNat ≤ 0xBE) ||
    (0xC0 ≤ c.toNat && c.toNat ≤ 0xD6) || (0xD8 ≤ c.toNat && c.toNat ≤ 0xF6) ||
    (0xF8 ≤ c.toNat && c.toNat ≤ 0xFF)

/-- The character class `[A-Za-z0-9 ._-]` named by the specification's
sanitizer property (spec §8, first bullet). -/
def specSafeChar (c : Char) : Bool :=
  ('a' ≤ c && c ≤ 'z') || ('A' ≤ c && c ≤ 'Z') || ('0' ≤ c && c ≤ '9') ||
    c = ' ' || c = '.' || c = '_' || c = '-'

/-! ## Capacity Guard (`check_disk_usage`, downloader.py lines 35-59) -/

/-- Outcome of the `psutil.disk_usage` call: a successful usage report
(percentage used, free bytes), a `FileNotFoundError`, or any other
exception. -/
inductive DiskQueryResult where
  | ok (percent : ℚ) (freeBytes : ℚ)
  | fileNotFound
  | err (msg : String)
  deriving Repr, DecidableEq

/-- Severity of an emitted log line (`logging.info` / `warning` / `error`). -/
inductive LogLevel where
  | info
  | warning
  | error
  deriving Repr, DecidableEq

/-- One call to the logger: severity plus message text. -/
structure LogCall where
  level : LogLevel
  msg : String
  deriving Repr, DecidableEq

/-- Models Python `f"{x:.2f}"` for the nonnegative rationals with at
most two decimal places produced in this development (for such values
the float formatting is exact and no tie-rounding occurs). -/
def formatPercent (p : ℚ) : String :=
  let cents : ℤ := ⌊p * 100⌋
  let whole := cents / 100
  let frac := cents % 100
  toString whole ++ "." ++ (if frac < 10 then "0" ++ toString frac else toString frac)

def DISK_SPACE_THRESHOLD_PERCENT : ℚ := 90

/-- `check_disk_usage` (downloader.py lines 35-59).  The
`psutil.disk_usage(abs_path)` call is abstracted as the `q` argument;
`abs_path` is passed in for message fidelity.  Returns the boolean
result together with the log lines emitted, in order.  The function is
total: every exception of the query is caught (`except FileNotFoundError`
/ `except Exception`) and turned into a `false` return. -/
def check_disk_usage (abs_path : String) (q : DiskQueryResult) (threshold_percent : ℚ) :
    Bool × List LogCall :=
  match q with
  | .ok percent free =>
      let infoLine : LogCall :=
        ⟨.info, "Disk usage for " ++ abs_path ++ ": " ++ formatPercent percent ++
          "% used, " ++ formatPercent (free / (1024 ^ 3 : ℚ)) ++ " GB free."⟩
      if threshold_percent ≤ percent then
        (true, [infoLine,
          ⟨.warning, "CRITICAL: Disk usage for " ++ abs_path ++ " is at " ++
            formatPercent percent ++ "%, exceeding threshold of " ++
            toString (threshold_percent : ℚ) ++ "%."⟩])
      else
        (false, [infoLine])
  | .fileNotFound =>
      (false, [⟨.error, "Cannot check disk usage: Path does not exist."⟩])
  | .err e =>
      (false, [⟨.error, "Error checking disk usage: " ++ e⟩])

/-! ## String primitives

Structurally recursive counterparts of the Python string operations the
module uses (`split`, `startswith`, `endswith`), over the character
lists underlying `String`. -/

/-- Split a character list on a separator character; like Python
`s.split(sep)`, the result always has one more part than there are
separator occurrences. -/
def splitOnChar (sep : Char) : List Char → List (List Char)
  | [] => [[]]
  | c :: cs =>
      if c = sep then [] :: splitOnChar sep cs
      else
        match splitOnChar sep cs with
        | h :: t => (c :: h) :: t
        | [] => [[c]]

/-- String view of `splitOnChar`. -/
def strSplitOn (sep : Char) (s : String) : List String :=
  (splitOnChar sep s.data).map (fun l => ⟨l⟩)

/-- Python `s.startswith(pre)`. -/
def strStartsWith (pre s : String) : Bool :=
  pre.data.isPrefixOf s.data

/-- Python `s.endswith(suf)`. -/
def strEndsWith (suf s : String) : Bool :=
  suf.data.reverse.isPrefixOf s.data.reverse

/-! ## POSIX path helpers (`os.path` on the POSIX flavour used by the code) -/

/-- Component-collapsing loop of `posixpath.normpath`: skip empty and
`.` components; a `..` is appended when the accumulated path is a
relative empty prefix or already ends in `..`, dropped at an absolute
root, and otherwise pops the previous component. -/
def normComps (initialSlashes : Bool) : List String → List String → List String
  | acc, [] => acc.reverse
  | acc, comp :: rest =>
      if comp = "" ∨ comp = "." then
        normComps initialSlashes acc rest
      else if comp ≠ ".." then
        normComps initialSlashes (comp :: acc) rest
      else
        match acc with
        | [] =>
            if initialSlashes then normComps initialSlashes [] rest
            else normComps initialSlashes [".."] rest
        | a :: as_ =>
            if a = ".." then normComps initialSlashes (".." :: a :: as_) rest
            else normComps initialSlashes as_ rest

/-- `posixpath.normpath`. -/
def normpath (p : String) : String :=
  if p = "" then "." else
  let initSlash := strStartsWith "/" p
  let doubleSlash := strStartsWith "//" p && !(strStartsWith "///" p)
  let newComps := normComps initSlash [] (strSplitOn '/' p)
  let slashes := if doubleSlash then "//" else if initSlash then "/" else ""
  let joined := slashes ++ String.intercalate "/" newComps
  if joined = "" then "." else joined

/-- `posixpath.join` for two components. -/
def pyJoin (a b : String) : String :=
  if strStartsWith "/" b then b
  else if a = "" ∨ strEndsWith "/" a then a ++ b
  else a ++ "/" ++ b

/-- `posixpath.abspath` relative to a current working directory `cwd`:
a non-absolute path is joined onto `cwd`, then normalized. -/
def abspath (cwd p : String) : String :=
  if strStartsWith "/" p then normpath p else normpath (pyJoin cwd p)

/-- Length of the longest common prefix of two component lists
(`os.path.commonprefix` on lists). -/
def commonPrefixLen : List String → List String → ℕ
  | a :: as_, b :: bs => if a = b then commonPrefixLen as_ bs + 1 else 0
  | _, _ => 0

/-- `posixpath.relpath(p, start)` under working directory `cwd`:
absolutize both, drop empty components, strip the common prefix, climb
with `..` for what remains of `start`, and join. -/
def relpath (cwd p start : String) : String :=
  let startList := (strSplitOn '/' (abspath cwd start)).filter (· ≠ "")
  let pathList := (strSplitOn '/' (abspath cwd p)).filter (· ≠ "")
  let i := commonPrefixLen startList pathList
  let relList := List.replicate (startList.length - i) ".." ++ pathList.drop i
  if relList = [] then "." else String.intercalate "/" relList

/-! ## Python string helpers used by the extractor -/

/-- Characters stripped by `str.strip()` (the ASCII whitespace actually
occurring in the tool output modelled here). -/
def isPySpace (c : Char) : Bool :=
  c = ' ' || c = '\t' || c = '\n' || c = '\r' || c = '\x0b' || c = '\x0c'

/-- `str.strip()`. -/
def pyStrip (s : String) : String :=
  ⟨((s.data.dropWhile isPySpace).reverse.dropWhile isPySpace).reverse⟩

/-- `str.splitlines()` for LF-separated text (the line-ending form the
tool output modelled here uses): split on newline, dropping the empty
fragment a trailing newline would produce. -/
def pySplitlines (s : String) : List String :=
  let parts := strSplitOn '\n' s
  if parts.getLast? = some "" then parts.dropLast else parts

/-- Python `needle in haystack` on strings: substring containment. -/
def pyContains (needle haystack : String) : Bool :=
  decide (needle.data <:+: haystack.data)

/-- `str.find(c)`: index of the first occurrence, `-1` if absent. -/
def pyFind (s : String) (c : Char) : ℤ :=
  match s.data.findIdx? (· = c) with
  | some i => (i : ℤ)
  | none => -1

/-- `str.rfind(c)`: index of the last occurrence, `-1` if absent. -/
def pyRFind (s : String) (c : Char) : ℤ :=
  match s.data.reverse.findIdx? (· = c) with
  | some j => (s.data.length : ℤ) - 1 - (j : ℤ)
  | none => -1

/-- Python slice `s[a:b]` for `0 ≤ a ≤ b`. -/
def pySlice (s : String) (a b : ℤ) : String :=
  ⟨(s.data.drop a.toNat).take (b - a).toNat⟩

/-! ## Result Extractor (downloader.py lines 152-199)

`json.loads` is abstracted as an oracle `J : String → Option (List (String × String))`
supplied by the environment: `some obj` models a successful parse to an
object whose string-valued fields are listed with distinct keys, and
`none` collapses every case in which the source leaves `video_filename`
unset — a `json.JSONDecodeError`, a parse to a non-object value, or an
object whose designated field is unusable (each of those paths in the
source logs a warning and leaves `video_filename` as `None`).  An object
lacking the `_filename` key is modelled by a `some obj` in which
`lookup` fails, matching the `"_filename" in yt_dlp_info` test. -/

/-- The structured-record test of line 157:
`line.strip().startswith("\x7b") and line.strip().endswith("\x7d")`. -/
def isJsonLine (l : String) : Bool :=
  strStartsWith "\x7b" (pyStrip l) && strEndsWith "\x7d" (pyStrip l)

/-- `json_lines` of line 157: the stdout lines passing `isJsonLine`. -/
def jsonLines (stdout : String) : List String :=
  (pySplitlines stdout).filter isJsonLine

/-- The root-relativization applied by both tiers (lines 166-170 and
188-192): if the absolute form of the extracted path starts with the
absolute form of the download directory (string prefix, Python
`startswith`), return `os.path.relpath(path, downloadDir)`; otherwise
return the path unchanged. -/
def relativize (cwd downloadDir p : String) : String :=
  if strStartsWith (abspath cwd downloadDir) (abspath cwd p) then
    relpath cwd p downloadDir
  else p

/-- The free-text tier's marker condition (line 182): the line contains
the marker phrase `"Merging formats into"` and names a known container
format (`".mp4"` or `".mkv"`). -/
def isMergeLine (l : String) : Bool :=
  pyContains "Merging formats into" l && (pyContains ".mp4" l || pyContains ".mkv" l)

/-- The quoted-path extraction of lines 185-188: `start` is one past
the first double quote (`find + 1`), `e` is the last double quote
(`rfind`); the span is returned when `start > 0 and e > start`. -/
def quoteSpan (l : String) : Option String :=
  let start := pyFind l '\x22' + 1
  let e := pyRFind l '\x22'
  if 0 < start && start < e then some (pySlice l start e) else none

/-- The free-text fallback loop (lines 181-196): scan lines in order;
on a marker line, extract the quoted span; when one is found, return it
relativized (the `break`); otherwise — including on marker lines
without such a quoted span — continue with the following lines. -/
def mergeScan (cwd downloadDir : String) : List String → Option String
  | [] => none
  | l :: ls =>
      if isMergeLine l then
        match quoteSpan l with
        | some q => some (relativize cwd downloadDir q)
        | none => mergeScan cwd downloadDir ls
      else mergeScan cwd downloadDir ls

/-- A line from which the free-text tier actually recovers a path: a
marker line offering a quoted span. -/
def mergeCandidate (l : String) : Bool :=
  isMergeLine l && (quoteSpan l).isSome

/-- The full extraction of `video_filename` (lines 152-199): if any
structured-record line exists, parse the last one and read its
`_filename` field (failures leave the result unset); only when no
structured-record line exists, fall back to the merge-line scan. -/
def extract_video_filename (J : String → Option (List (String × String)))
    (cwd downloadDir stdout : String) : Option String :=
  match (jsonLines stdout).getLast? with
  | some lastLine =>
      match J lastLine with
      | some obj =>
          match obj.lookup "_filename" with
          | some p => some (relativize cwd downloadDir p)
          | none => none
      | none => none
  | none => mergeScan cwd downloadDir (pySplitlines stdout)

/-! ## Download Service (`download_content`, downloader.py lines 109-215) -/

/-- ASCII letters. -/
def isAsciiAlpha (c : Char) : Bool :=
  ('a' ≤ c && c ≤ 'z') || ('A' ≤ c && c ≤ 'Z')

/-- The scheme characters of `urllib.parse` (`scheme_chars`,
parse.py lines 77-80): ASCII letters, digits, `+`, `-`, `.`. -/
def schemeChar (c : Char) : Bool :=
  asciiAlnum c || c = '+' || c = '-' || c = '.'

/-- Continuation of the scheme scan: the text after the first colon,
provided every character up to it is a scheme character; `none` when a
non-scheme character intervenes or no colon exists. -/
def splitSchemeTail : List Char → Option (List Char)
  | [] => none
  | ':' :: rest => some rest
  | c :: rest => if schemeChar c then splitSchemeTail rest else none

/-- The scheme split of `urlsplit` (parse.py lines 462-467): the URL
after its scheme colon, when the first character is an ASCII letter and
every character before the first colon is a scheme character; `none`
otherwise (then no scheme is recognized). -/
def splitScheme (url : List Char) : Option (List Char) :=
  match url with
  | [] => none
  | c :: rest => if isAsciiAlpha c then splitSchemeTail rest else none

/-- The URL with its scheme removed when one is recognized, else the
URL itself. -/
def urlRest (url : String) : List Char :=
  (splitScheme url.data).getD url.data

/-- The netloc of `urlsplit` (parse.py lines 470-471): present only
when the scheme-stripped URL starts with `//`, running up to the
earliest of `/`, `?`, `#` (`_splitnetloc`, parse.py lines 404-410).
URLs containing tab/CR/LF or control characters (which `urlsplit`
strips first) are outside the repertoire modelled here. -/
def urlNetloc (url : String) : List Char :=
  match urlRest url with
  | '/' :: '/' :: r => r.takeWhile (fun c => c ≠ '/' && c ≠ '?' && c ≠ '#')
  | _ => []

/-- `urllib.parse.urlparse(url).netloc` for URLs that parse without
raising. -/
def urlparse_netloc (url : String) : String :=
  ⟨urlNetloc url⟩

/-- The `ValueError("Invalid IPv6 URL")` condition of `urlsplit`
(parse.py lines 471-474): the netloc contains `[` without `]` or `]`
without `[`.  When true, `urlparse` raises; the call at
downloader.py line 128 sits before the `try` block, so the exception
escapes `download_content`.  (The NFKC re-normalization check
`_checknetloc` can also raise, but only for non-ASCII netlocs, outside
the repertoire modelled here.) -/
def urlparse_invalid_ipv6 (url : String) : Bool :=
  let n := urlNetloc url
  (n.contains '[' && !(n.contains ']')) || (n.contains ']' && !(n.contains '['))

def DOWNLOAD_DIR : String := "downloads"

/-- Outcome of `subprocess.run(command, capture_output=True, text=True,
check=True)`: a zero exit with captured stdout/stderr, a
`CalledProcessError` (non-zero exit), a `FileNotFoundError` (executable
missing), or any other exception raised inside the `try` block. -/
inductive ProcOutcome where
  | ok (stdout stderr : String)
  | calledProcessError (returncode : ℤ) (stderr : String)
  | fileNotFound
  | otherExc (msg : String)

/-- The operating-system-facing behaviour `download_content` depends
on, fixed for one invocation (the model is deterministic: repeated
queries within the call observe the same state). -/
structure Env where
  /-- Current working directory, for `os.path.abspath`. -/
  cwd : String
  /-- Whether `os.makedirs(path, exist_ok=True)` succeeds at a path;
  `false` models a raised `OSError` (permission denied, or a regular
  file occupying the path, which `exist_ok` does not forgive). -/
  mkdirs : String → Bool
  /-- Result of `psutil.disk_usage(abspath(DOWNLOAD_DIR))`. -/
  disk : DiskQueryResult
  /-- Result of running the `yt-dlp` command. -/
  run : ProcOutcome
  /-- The `json.loads` oracle (see the Result Extractor section). -/
  jsonParse : String → Option (List (String × String))
  /-- `datetime.now().strftime("%Y-%m-%d")`. -/
  dateFolder : String
  /-- The Python runtime's `str.isalnum` classification, used by
  `sanitize_filename` on the URL's netloc. -/
  isalnum : Char → Bool

/-- Observable side effects of one `download_content` call, in order. -/
inductive Eff where
  | makedirs (path : String)
  | diskCheck (path : String)
  | spawn (command : List String)
  deriving Repr, DecidableEq

/-- The result dictionary: `status` is always present; the remaining
fields model optional dictionary keys (`none` = key absent).  For
`video_filename` the inner `Option` is the Python value, which may be
`None`. -/
structure ResultDict where
  status : String
  error : Option String
  output : Option String
  video_filename : Option (Option String)
  deriving Repr, DecidableEq

/-- The over-threshold error message of line 124, which re-queries
`psutil.disk_usage` for the percentage (the deterministic environment
returns the same report as the guard's query did). -/
def lowDiskMessage (d : DiskQueryResult) : String :=
  match d with
  | .ok p _ =>
      "Disk space critically low. Please free up space. Current usage: " ++
        formatPercent p ++ "%."
  | _ => ""

/-- `download_content(url)` (downloader.py lines 109-215).  Returns the
effect trace together with either `Except.ok` of the returned
dictionary or `Except.error` of an escaping exception.  The two
`os.makedirs` calls (lines 119 and 133) and the `urlparse` call (line
128, which raises `ValueError` on an invalid-IPv6 netloc) sit before
the `try` block of line 147, so their failures propagate; everything
raised from `subprocess.run` onward is caught by the handlers of lines
207-215. -/
def download_content (env : Env) (url : String) : List Eff × Except String ResultDict :=
  if url = "" then
    ([], .ok ⟨"error", some "Empty URL provided.", none, none⟩)
  else
    let t1 : List Eff := [.makedirs DOWNLOAD_DIR]
    if env.mkdirs DOWNLOAD_DIR = false then
      (t1, .error "OSError raised by os.makedirs(DOWNLOAD_DIR)")
    else
      let t2 : List Eff := t1 ++ [.diskCheck DOWNLOAD_DIR]
      if (check_disk_usage (abspath env.cwd DOWNLOAD_DIR) env.disk DISK_SPACE_THRESHOLD_PERCENT).1 then
        (t2, .ok ⟨"error", some (lowDiskMessage env.disk), none, none⟩)
      else if urlparse_invalid_ipv6 url then
        (t2, .error "ValueError: Invalid IPv6 URL")
      else
        let domain := urlparse_netloc url
        let save_path := DOWNLOAD_DIR ++ "/" ++ sanitize_filename env.isalnum domain ++ "/" ++ env.dateFolder
        let t3 : List Eff := t2 ++ [.makedirs save_path]
        if env.mkdirs save_path = false then
          (t3, .error "OSError raised by os.makedirs(save_path)")
        else
          let command := ["yt-dlp", "--no-playlist", "--write-thumbnail",
            "--write-info-json", "--output", save_path ++ "/%(title).70s.%(ext)s",
            "--print-json", url]
          let t4 : List Eff := t3 ++ [.spawn command]
          match env.run with
          | .ok stdout _ =>
              (t4, .ok ⟨"success", none, some stdout,
                some (extract_video_filename env.jsonParse env.cwd DOWNLOAD_DIR stdout)⟩)
          | .calledProcessError _ stderr =>
              (t4, .ok ⟨"error", some stderr, none, none⟩)
          | .fileNotFound =>
              (t4, .ok ⟨"error", some "yt-dlp not found. Please install it.", none, none⟩)
          | .otherExc m =>
              (t4, .ok ⟨"error", some m, none, none⟩)

/-! ## Retention Sweeper (`clean_old_downloads`, downloader.py lines 61-105)

The directory tree under `DOWNLOAD_DIR` is modelled as a list of
entries (files with a last-modified time, directories with children);
scandir order is list order.  `os.walk(DOWNLOAD_DIR, topdown=False)`
lists a directory before descending, then yields the subtrees
depth-first and the directory itself last; since deletions only ever
happen in triples yielded earlier — i.e. in disjoint, already-processed
subtrees — every listing a triple is built from shows the original
contents.  Processing a triple deletes the old files of that directory,
then removes each listed subdirectory whose *current* listing
(`os.listdir`, taken after the subtree was fully processed) is empty;
that current listing is exactly the subtree's swept children.  The
deterministic model has no concurrent modification, so the
`os.path.exists` re-checks of lines 82 and 96 are always true and the
exception handlers are never reached. -/

/-- A node of the output tree: a file with its `st_mtime`, or a
directory with its children in scandir order. -/
inductive Entry where
  | file (name : String) (mtime : ℕ)
  | dir (name : String) (children : List Entry)
  deriving Repr

/-- The tree remaining beneath a directory after one sweep with cutoff
time `c`: files survive iff `¬ mtime < c` (line 82 deletes on
`st_mtime < cutoff_time`); a subdirectory survives iff its own swept
subtree is nonempty (line 96 removes it when `os.listdir` is empty at
the moment its parent's triple is processed). -/
def sweepList (c : ℕ) : List Entry → List Entry
  | [] => []
  | Entry.file n m :: es =>
      (if m < c then [] else [Entry.file n m]) ++ sweepList c es
  | Entry.dir n cs :: es =>
      (if (sweepList c cs).isEmpty then [] else [Entry.dir n (sweepList c cs)]) ++ sweepList c es

/-- A deletion performed by the sweep: `os.remove` of a file path or
`os.rmdir` of a directory path, both as component lists rooted at the
walk root. -/
inductive FsOp where
  | remove (path : List String)
  | rmdir (path : List String)
  deriving Repr, DecidableEq

/-- Path of a deletion. -/
def FsOp.path : FsOp → List String
  | .remove p => p
  | .rmdir p => p

/-- `os.remove` calls of one triple (lines 78-89): the directory's own
files whose mtime is strictly below the cutoff, in listing order. -/
def removeOps (c : ℕ) (path : List String) (es : List Entry) : List FsOp :=
  es.filterMap fun e =>
    match e with
    | Entry.file n m => if m < c then some (FsOp.remove (path ++ [n])) else none
    | Entry.dir _ _ => none

/-- `os.rmdir` calls of one triple (lines 92-103): the listed
subdirectories found empty after their subtrees were processed. -/
def rmdirOps (c : ℕ) (path : List String) (es : List Entry) : List FsOp :=
  es.filterMap fun e =>
    match e with
    | Entry.dir n cs => if (sweepList c cs).isEmpty then some (FsOp.rmdir (path ++ [n])) else none
    | Entry.file _ _ => none

mutual

/-- Deletions of `os.walk(path, topdown=False)` over children `es`: all
deletions inside the subdirectories first (depth-first, in listing
order), then this directory's own triple — file removals, then empty
subdirectory removals. -/
def walkOps (c : ℕ) (path : List String) (es : List Entry) : List FsOp :=
  walkSubdirs c path es ++ removeOps c path es ++ rmdirOps c path es

/-- The recursive walks into each subdirectory, in listing order. -/
def walkSubdirs (c : ℕ) (path : List String) : List Entry → List FsOp
  | [] => []
  | Entry.file _ _ :: es => walkSubdirs c path es
  | Entry.dir n cs :: es => walkOps c (path ++ [n]) cs ++ walkSubdirs c path es

end

/-- `clean_old_downloads` (lines 61-105) on an existing download
directory with children `tree`: the deletions it performs, in order,
for cutoff time `c` (`time.time() - days_old*24*60*60`).  The walk is
rooted at `DOWNLOAD_DIR`, which is only ever the `root` of a yielded
triple and never a member of a `dirs` list, so no `os.rmdir` can target
it. -/
def clean_old_downloads (c : ℕ) (tree : List Entry) : List FsOp :=
  walkOps c [DOWNLOAD_DIR] tree

/-- File paths of a tree, with each file's mtime, as root-relative
component lists in traversal order. -/
def listFiles : List Entry → List (List String × ℕ)
  | [] => []
  | Entry.file n m :: es => ([n], m) :: listFiles es
  | Entry.dir n cs :: es =>
      (listFiles cs).map (fun p => (n :: p.1, p.2)) ++ listFiles es

/-- Directory paths of a tree, each paired with its subtree, in
traversal order. -/
def listDirs : List Entry → List (List String × List Entry)
  | [] => []
  | Entry.file _ _ :: es => listDirs es
  | Entry.dir n cs :: es =>
      ([n], cs) :: ((listDirs cs).map (fun q => (n :: q.1, q.2)) ++ listDirs es)

/-! ## Specification-side definitions and concrete test fixtures

`liesUnder` renders the specification's words "the parsed path lies
under the output root" for comparison with the code's string-prefix
test; the `...env` records and `...J` oracles below are concrete
fixtures for witnesses and counterexamples. -/

/-- The specification's "lies under the output root" relation on
absolute paths: the path is the root itself or extends it below a path
separator. -/
def liesUnder (root p : String) : Bool :=
  p = root || strStartsWith (root ++ "/") p

/-- Concrete environment for the C4 witness: root creatable, disk at
95% used. -/
def C4env : Env :=
  ⟨"/", fun _ => true, DiskQueryResult.ok 95 5, ProcOutcome.ok "" "",
    fun _ => none, "2026-10-12", pyIsAlnumLatin1⟩

/-- `json.loads` oracle for the C5 fixtures: the two structured-record
lines of the specification's extractor example, plus the sibling-path
record used by the counterexample. -/
def C5J : String → Option (List (String × String)) := fun s =>
  if s = "\x7b\"_filename\": \"/root/other.mp4\"\x7d" then
    some [("_filename", "/root/other.mp4")]
  else if s = "\x7b\"_filename\": \"/root/domain/date/title.mp4\"\x7d" then
    some [("_filename", "/root/domain/date/title.mp4")]
  else if s = "\x7b\"_filename\": \"/rootx/a.mp4\"\x7d" then
    some [("_filename", "/rootx/a.mp4")]
  else none

/-- Tool output holding two structured-record lines (the
specification's extractor example). -/
def C5stdoutTwo : String :=
  "\x7b\"_filename\": \"/root/other.mp4\"\x7d\n\x7b\"_filename\": \"/root/domain/date/title.mp4\"\x7d"

/-- Tool output holding one structured-record line whose final path is
a sibling of the output root sharing its name as a string prefix. -/
def C5stdoutSibling : String :=
  "\x7b\"_filename\": \"/rootx/a.mp4\"\x7d"

/-- Concrete environment for the C6 witness: everything healthy, tool
stdout holding no structured record and no merge line. -/
def C6env : Env :=
  ⟨"/", fun _ => true, DiskQueryResult.ok 10 5,
    ProcOutcome.ok "no patterns here" "", fun _ => none, "2026-10-12",
    pyIsAlnumLatin1⟩

/-- For any `str.isalnum` classification accepting the ASCII
alphanumerics — as the true one does — every character of the
specification's `[A-Za-z0-9 ._-]` class satisfies the sanitizer's
keep-condition. -/
theorem keepChar_of_specSafe (isalnum : Char → Bool)
    (hascii : ∀ c, asciiAlnum c = true → isalnum c = true)
    (c : Char) (h : specSafeChar c = true) : keepChar isalnum c = true := by
  have hi := hascii c
  unfold specSafeChar at h
  unfold keepChar
  unfold asciiAlnum at hi
  simp only [Bool.or_eq_true, Bool.and_eq_true, decide_eq_true_eq] at h hi ⊢
  tauto

/-- C1, counterexample.  The claim restricts the output alphabet to
`[A-Za-z0-9 ._-]`, but Python's `str.isalnum` also accepts non-ASCII
alphanumerics, so `sanitize_filename` passes them through: on input
`"é"` (U+00E9, alphanumeric for CPython) the output is `"é"`, whose
character is outside the claimed class. -/
theorem C1_counterexample :
    sanitize_filename pyIsAlnumLatin1 "é" = "é" ∧
    pyIsAlnumLatin1 'é' = true ∧
    specSafeChar 'é' = false := by
  refine ⟨by decide, by decide, by decide⟩

/-- C1, amended.  For every `str.isalnum` classification and every
input string, `sanitize_filename` returns a string of the same length
in which each position holds the input character when it satisfies the
keep-condition (alphanumeric per the classification, or one of
`" ._-"`), and a single underscore otherwise (order preserved); every
output character satisfies the keep-condition; and — since `str.isalnum`
accepts every ASCII alphanumeric — an input consisting only of
characters from `[A-Za-z0-9 ._-]` is returned unchanged.  The output
alphabet is the `str.isalnum` class plus `" ._-"`, a strict superset of
the claimed ASCII class. -/
theorem C1_sanitize_amended (isalnum : Char → Bool) (s : String) :
    (sanitize_filename isalnum s).length = s.length ∧
    (∀ i : ℕ, ∀ c : Char, s.data[i]? = some c →
      (sanitize_filename isalnum s).data[i]? =
        some (if keepChar isalnum c then c else '_')) ∧
    (∀ c ∈ (sanitize_filename isalnum s).data, keepChar isalnum c = true) ∧
    ((∀ c2, asciiAlnum c2 = true → isalnum c2 = true) →
      (∀ c ∈ s.data, specSafeChar c = true) → sanitize_filename isalnum s = s) := by
  refine ⟨?_, ?_, ?_, ?_⟩
  · show (sanitize_filename isalnum s).data.length = s.data.length
    simp [sanitize_filename]
  · intro i c hc
    simp only [sanitize_filename, List.getElem?_map, hc, Option.map_some']
    simp [sanitizeChar]
  · intro c hc
    simp only [sanitize_filename, List.mem_map] at hc
    obtain ⟨a, _, rfl⟩ := hc
    unfold sanitizeChar
    split
    · assumption
    · unfold keepChar
      simp
  · intro hascii hall
    have hmap : ∀ l : List Char, (∀ c ∈ l, specSafeChar c = true) →
        l.map (sanitizeChar isalnum) = l := by
      intro l hl
      induction l with
      | nil => rfl
      | cons a t ih =>
          have hk : sanitizeChar isalnum a = a := by
            unfold sanitizeChar
            simp [keepChar_of_specSafe isalnum hascii a (hl a (List.mem_cons_self a t))]
          simp only [List.map_cons]
          rw [hk, ih (fun c hc => hl c (List.mem_cons_of_mem a hc))]
    show (⟨s.data.map (sanitizeChar isalnum)⟩ : String) = s
    rw [hmap s.data hall]

/-- C1 witness, at the Latin-1 instance of the classification: a string
containing a disallowed character `:` is rewritten to an underscore at
that position with length preserved, and an all-safe string is returned
unchanged. -/
theorem C1_sanitize_amended_witness :
    (sanitize_filename pyIsAlnumLatin1 "a:b").length = ("a:b" : String).length ∧
    sanitize_filename pyIsAlnumLatin1 "ab c.d-e_f" = "ab c.d-e_f" := by
  refine ⟨(C1_sanitize_amended pyIsAlnumLatin1 "a:b").1, ?_⟩
  exact (C1_sanitize_amended pyIsAlnumLatin1 "ab c.d-e_f").2.2.2
    (fun c2 h2 => by simp [pyIsAlnumLatin1, h2]) (by decide)

/-- C2.  `check_disk_usage` returns `true` exactly when the usage query
succeeds with a used-space percentage at or above the threshold; when
the query raises `FileNotFoundError` or any other exception it returns
`false` (fail-open) and logs an error-level line.  The function is
total — every exception is absorbed, so nothing is raised to the
caller. -/
theorem C2_check_disk_usage (ap : String) (q : DiskQueryResult) (t : ℚ) :
    ((check_disk_usage ap q t).1 = true ↔
      ∃ p f, q = DiskQueryResult.ok p f ∧ t ≤ p) ∧
    ((q = DiskQueryResult.fileNotFound ∨ ∃ m, q = DiskQueryResult.err m) →
      (check_disk_usage ap q t).1 = false ∧
      ∃ m, LogCall.mk LogLevel.error m ∈ (check_disk_usage ap q t).2) := by
  cases q with
  | ok p f =>
      constructor
      · by_cases h : t ≤ p <;> simp [check_disk_usage, h]
      · rintro (h | ⟨m, h⟩) <;> exact absurd h (by simp)
  | fileNotFound =>
      constructor
      · simp [check_disk_usage]
      · intro _
        exact ⟨by simp [check_disk_usage],
          "Cannot check disk usage: Path does not exist.", by simp [check_disk_usage]⟩
  | err e =>
      constructor
      · simp [check_disk_usage]
      · intro _
        exact ⟨by simp [check_disk_usage],
          "Error checking disk usage: " ++ e, by simp [check_disk_usage]⟩

/-- C2 witness: a report of 95% against threshold 90 is over; a missing
path is under (fail-open) with an error log line. -/
theorem C2_check_disk_usage_witness :
    (check_disk_usage "/downloads" (DiskQueryResult.ok 95 5) 90).1 = true ∧
    (check_disk_usage "/downloads" DiskQueryResult.fileNotFound 90).1 = false := by
  refine ⟨?_, ?_⟩
  · exact (C2_check_disk_usage "/downloads" (DiskQueryResult.ok 95 5) 90).1.mpr
      ⟨95, 5, rfl, by norm_num⟩
  · exact ((C2_check_disk_usage "/downloads" DiskQueryResult.fileNotFound 90).2
      (Or.inl rfl)).1

/-- C3.  On an empty URL, `download_content` returns the error
dictionary immediately, with an empty effect trace: no directory
creation, no disk check, no spawned process. -/
theorem C3_empty_url (env : Env) :
    download_content env "" =
      ([], Except.ok ⟨"error", some "Empty URL provided.", none, none⟩) := by
  rfl

/-- C4.  When the download root can be created and the usage query
reports a percentage at or above the threshold, `download_content` on a
non-empty URL returns the error dictionary whose message carries the
formatted current usage percentage, and the effect trace contains no
process spawn. -/
theorem C4_disk_over_threshold (env : Env) (url : String) (p f : ℚ)
    (hurl : url ≠ "") (hmk : env.mkdirs DOWNLOAD_DIR = true)
    (hdisk : env.disk = DiskQueryResult.ok p f)
    (hp : DISK_SPACE_THRESHOLD_PERCENT ≤ p) :
    (download_content env url).2 = Except.ok
      ⟨"error",
        some ("Disk space critically low. Please free up space. Current usage: " ++
          formatPercent p ++ "%."),
        none, none⟩ ∧
    ∀ cmd, Eff.spawn cmd ∉ (download_content env url).1 := by
  have hguard :
      (check_disk_usage (abspath env.cwd DOWNLOAD_DIR) env.disk
        DISK_SPACE_THRESHOLD_PERCENT).1 = true := by
    rw [hdisk]
    simp [check_disk_usage, hp]
  unfold download_content
  rw [if_neg hurl]
  simp only [hmk, Bool.true_eq_false, if_false, hguard, if_true]
  constructor
  · simp [lowDiskMessage, hdisk]
  · intro cmd
    simp

/-- C4 witness: at 95% usage the call returns the low-disk error
dictionary with the percentage in its message. -/
theorem C4_disk_over_threshold_witness :
    (download_content C4env "http://example.com/v").2 = Except.ok
      ⟨"error",
        some ("Disk space critically low. Please free up space. Current usage: " ++
          formatPercent 95 ++ "%."),
        none, none⟩ :=
  (C4_disk_over_threshold C4env "http://example.com/v" 95 5 (by decide) rfl rfl
    (by norm_num [DISK_SPACE_THRESHOLD_PERCENT])).1

/-- C7.  Every dictionary `download_content` returns satisfies the
result invariant: an `error` status never carries the
`video_filename` key, and a `success` status always carries it (with a
possibly-null value). -/
theorem C7_result_invariant (env : Env) (url : String) (d : ResultDict)
    (h : (download_content env url).2 = Except.ok d) :
    (d.status = "error" → d.video_filename = none) ∧
    (d.status = "success" → ∃ v, d.video_filename = some v) := by
  simp only [download_content] at h
  repeat' split at h
  all_goals simp only [Except.ok.injEq, reduceCtorEq] at h
  all_goals first
  | exact absurd h (by simp)
  | (subst h; constructor <;> intro hs <;> simp_all)

/-- C7 witness: a concrete successful call carries the
`video_filename` key. -/
theorem C7_result_invariant_witness :
    ∃ v, (ResultDict.video_filename
      ⟨"success", none, some "", some none⟩) = some v := by
  have h := C7_result_invariant
    ⟨"/", fun _ => true, DiskQueryResult.ok 10 5, ProcOutcome.ok "" "",
      fun _ => none, "2026-10-12", pyIsAlnumLatin1⟩
    "http://example.com/v" ⟨"success", none, some "", some none⟩ (by rfl)
  exact h.2 rfl


/-- C5, counterexample.  The claim says a parsed final path not lying
under the output root is returned as-is, but the code's test is a plain
string-prefix comparison: with output root `/root`, the sibling path
`/rootx/a.mp4` does not lie under the root, yet it passes the
`startswith` test and is returned relativized as `../rootx/a.mp4`
rather than as-is. -/
theorem C5_counterexample :
    extract_video_filename C5J "/" "/root" C5stdoutSibling = some "../rootx/a.mp4" ∧
    liesUnder "/root" "/rootx/a.mp4" = false ∧
    some "../rootx/a.mp4" ≠ some "/rootx/a.mp4" := by
  refine ⟨by decide, by decide, by decide⟩

/-- C5, amended.  When the tool's stdout contains at least one
structured-record line, the extractor parses the last such line and
takes its `_filename` field; if the absolute form of that path starts
with the absolute form of the output root as a *string prefix* it is
returned via `relpath` relative to the root, otherwise it is returned
as-is.  (The prefix test also matches sibling paths whose name extends
the root's name, which are then relativized rather than kept as-is.) -/
theorem C5_structured_tier_amended
    (J : String → Option (List (String × String))) (cwd dd stdout : String)
    (lastLine : String) (obj : List (String × String)) (p : String)
    (hlast : (jsonLines stdout).getLast? = some lastLine)
    (hJ : J lastLine = some obj)
    (hfield : obj.lookup "_filename" = some p) :
    (strStartsWith (abspath cwd dd) (abspath cwd p) = true →
      extract_video_filename J cwd dd stdout = some (relpath cwd p dd)) ∧
    (strStartsWith (abspath cwd dd) (abspath cwd p) = false →
      extract_video_filename J cwd dd stdout = some p) := by
  unfold extract_video_filename
  simp only [hlast, hJ, hfield]
  unfold relativize
  constructor <;> intro hpre <;> simp [hpre]

/-- C5 witness: the specification's extractor example — two
structured-record lines, the last carrying
`_filename: "/root/domain/date/title.mp4"` with root `/root` — yields
`domain/date/title.mp4`. -/
theorem C5_structured_tier_amended_witness :
    extract_video_filename C5J "/" "/root" C5stdoutTwo = some "domain/date/title.mp4" := by
  have h := (C5_structured_tier_amended C5J "/" "/root" C5stdoutTwo
    "\x7b\"_filename\": \"/root/domain/date/title.mp4\"\x7d"
    [("_filename", "/root/domain/date/title.mp4")]
    "/root/domain/date/title.mp4"
    (by decide) (by decide) (by decide)).1 (by decide)
  exact h.trans (by decide)


/-- The fallback scan returns the relativized quoted span of the first
line that is a marker line offering a quoted span. -/
theorem mergeScan_eq_find (cwd dd : String) (ls : List String) :
    mergeScan cwd dd ls =
      (ls.find? mergeCandidate).bind (fun l => (quoteSpan l).map (relativize cwd dd)) := by
  induction ls with
  | nil => rfl
  | cons l t ih =>
      by_cases hm : isMergeLine l
      · cases hq : quoteSpan l with
        | some q =>
            have hc : mergeCandidate l = true := by simp [mergeCandidate, hm, hq]
            simp [mergeScan, hm, hq, List.find?, hc]
        | none =>
            have hc : mergeCandidate l = false := by simp [mergeCandidate, hq]
            simp [mergeScan, hm, hq, List.find?, hc, ih]
      · have hc : mergeCandidate l = false := by simp [mergeCandidate, hm]
        simp only [Bool.not_eq_true] at hm
        simp [mergeScan, hm, List.find?, hc, ih]

/-- C6.  The free-text tier: (1) when a structured-record line exists,
the extraction result depends only on the structured-record lines, so
the merge-line fallback is unused; (2) when no structured-record line
exists, the result is the relativized quoted path of the first line
satisfying the marker condition (marker phrase plus a known container
format) and offering a quoted span, and `none` when no line qualifies;
(3) whenever the tool runs and exits zero, the returned dictionary has
status `success` and carries the extraction result as its
`video_filename` — a null artifact when extraction failed — never an
error.  (Reaching the tool presupposes the URL parsed: a URL on which
`urlparse` raises at line 128 never spawns the process, hence the
`urlparse_invalid_ipv6` hypothesis.) -/
theorem C6_free_text_tier
    (J : String → Option (List (String × String))) (cwd dd : String)
    (stdout : String) (env : Env) (url : String) :
    (∀ stdout2, jsonLines stdout ≠ [] → jsonLines stdout = jsonLines stdout2 →
      extract_video_filename J cwd dd stdout = extract_video_filename J cwd dd stdout2) ∧
    (jsonLines stdout = [] →
      (∀ l q, (pySplitlines stdout).find? mergeCandidate = some l → quoteSpan l = some q →
        extract_video_filename J cwd dd stdout = some (relativize cwd dd q)) ∧
      ((pySplitlines stdout).find? mergeCandidate = none →
        extract_video_filename J cwd dd stdout = none)) ∧
    (url ≠ "" → (∀ p2, env.mkdirs p2 = true) →
      (check_disk_usage (abspath env.cwd DOWNLOAD_DIR) env.disk
        DISK_SPACE_THRESHOLD_PERCENT).1 = false →
      urlparse_invalid_ipv6 url = false →
      ∀ out errtxt, env.run = ProcOutcome.ok out errtxt →
      (download_content env url).2 = Except.ok
        ⟨"success", none, some out,
          some (extract_video_filename env.jsonParse env.cwd DOWNLOAD_DIR out)⟩) := by
  refine ⟨?_, ?_, ?_⟩
  · intro stdout2 hne heq
    unfold extract_video_filename
    cases h1 : (jsonLines stdout).getLast? with
    | none => exact absurd (List.getLast?_eq_none_iff.mp h1) hne
    | some L =>
        have h2 : (jsonLines stdout2).getLast? = some L := by rw [← heq, h1]
        rw [h2]
  · intro hempty
    have hlast : (jsonLines stdout).getLast? = none := by rw [hempty]; rfl
    constructor
    · intro l q hfind hq
      unfold extract_video_filename
      rw [hlast, mergeScan_eq_find, hfind]
      simp [hq]
    · intro hnone
      unfold extract_video_filename
      rw [hlast, mergeScan_eq_find, hnone]
      rfl
  · intro hurl hmk hguard hvalid out errtxt hrun
    simp only [download_content]
    rw [if_neg hurl]
    simp only [hmk, hguard, hvalid, hrun, Bool.true_eq_false, if_false]
    simp

/-- C6 witness: a merge line with a quoted path under the root is
recovered and relativized; a clean run whose stdout matches neither
tier still returns a `success` dictionary with a null
`video_filename`. -/
theorem C6_free_text_tier_witness :
    extract_video_filename (fun _ => none) "/" "downloads"
      "[ffmpeg] Merging formats into \"/downloads/domain/2024/t.mkv\"" =
        some "domain/2024/t.mkv" ∧
    (download_content C6env "http://example.com/v").2 =
      Except.ok ⟨"success", none, some "no patterns here", some none⟩ := by
  constructor
  · have h := (((C6_free_text_tier (fun _ => none) "/" "downloads"
      "[ffmpeg] Merging formats into \"/downloads/domain/2024/t.mkv\"" C6env "x").2).1
      (by decide)).1
      "[ffmpeg] Merging formats into \"/downloads/domain/2024/t.mkv\""
      "/downloads/domain/2024/t.mkv" (by decide) (by decide)
    exact h.trans (by decide)
  · have h := ((C6_free_text_tier (fun _ => none) "/" "downloads" "" C6env
      "http://example.com/v").2).2 (by decide) (fun p2 => rfl) (by decide)
      (by decide) "no patterns here" "" rfl
    exact h.trans (by rfl)


/-- Files of a swept tree: exactly the original files at or after the
cutoff, in order. -/
theorem listFiles_sweepList (c : ℕ) (es : List Entry) :
    listFiles (sweepList c es) = (listFiles es).filter (fun p => !decide (p.2 < c)) := by
  have hcomp : ∀ n : String, ((fun p : List String × ℕ => !decide (p.2 < c)) ∘
      (fun p : List String × ℕ => ((n :: p.1 : List String), p.2))) =
      (fun p : List String × ℕ => !decide (p.2 < c)) := fun n => rfl
  induction es using sweepList.induct c with
  | case1 => simp [sweepList, listFiles]
  | case2 n m es ih =>
      by_cases hm : m < c <;> simp [sweepList, listFiles, hm, ih]
  | case3 n cs es ih1 ih2 =>
      by_cases he : (sweepList c cs).isEmpty
      · have hnil : sweepList c cs = [] := List.isEmpty_iff.mp he
        have hfe : (listFiles cs).filter (fun p => !decide (p.2 < c)) = [] := by
          rw [← ih1, hnil]; simp [listFiles]
        have hmape : (List.map (fun p : List String × ℕ => ((n :: p.1 : List String), p.2))
            (listFiles cs)).filter (fun p => !decide (p.2 < c)) = [] := by
          rw [List.filter_map, hcomp n, hfe]
          simp
        simp [sweepList, listFiles, he, ih2, List.filter_append, hmape]
      · simp only [sweepList, he, Bool.false_eq_true, if_false, List.cons_append,
          List.nil_append, listFiles, List.filter_append, ih1, ih2, List.filter_map,
          hcomp n]

/-- A sweep leaves nothing of a tree exactly when every file in it is
strictly older than the cutoff. -/
theorem sweepList_eq_nil_iff (c : ℕ) (es : List Entry) :
    sweepList c es = [] ↔ ∀ p ∈ listFiles es, p.2 < c := by
  constructor
  · intro h p hp
    have h1 := listFiles_sweepList c es
    rw [h] at h1
    have h2 : (listFiles es).filter (fun p => !decide (p.2 < c)) = [] := by
      rw [← h1]; simp [listFiles]
    have := List.filter_eq_nil_iff.mp h2 p hp
    simpa using this
  · intro hall
    induction es using sweepList.induct c with
    | case1 => simp [sweepList]
    | case2 n m es ih =>
        have hm : m < c := hall ([n], m) (by simp [listFiles])
        have hrest : ∀ p ∈ listFiles es, p.2 < c := by
          intro p hp
          exact hall p (by simp [listFiles, hp])
        simp [sweepList, hm, ih hrest]
    | case3 n cs es ih1 ih2 =>
        have hcs : ∀ p ∈ listFiles cs, p.2 < c := by
          intro p hp
          refine hall ((n :: p.1 : List String), p.2) ?_
          simp only [listFiles, List.mem_append]
          exact Or.inl (List.mem_map_of_mem
            (fun p : List String × ℕ => ((n :: p.1 : List String), p.2)) hp)
        have hrest : ∀ p ∈ listFiles es, p.2 < c := by
          intro p hp
          exact hall p (by simp [listFiles, hp])
        have hie : (sweepList c cs).isEmpty = true := by
          rw [ih1 hcs]; simp
        simp [sweepList, hie, ih2 hrest]


/-- Every file beneath a directory of a tree is a file of the tree
(with the same last-modified time). -/
theorem mtime_of_subdir_file (cs : List Entry) (q : List String × List Entry)
    (hq : q ∈ listDirs cs) (p : List String × ℕ) (hp : p ∈ listFiles q.2) :
    ∃ p1 ∈ listFiles cs, p1.2 = p.2 := by
  induction cs using listDirs.induct generalizing q p with
  | case1 => simp [listDirs] at hq
  | case2 _ _ es ih =>
      simp only [listDirs] at hq
      obtain ⟨p1, hp1, hs⟩ := ih q hq p hp
      exact ⟨p1, by simp [listFiles, hp1], hs⟩
  | case3 n cs2 es ih1 ih2 =>
      simp only [listDirs, List.mem_cons, List.mem_append, List.mem_map] at hq
      rcases hq with hq | ⟨q2, hq2, rfl⟩ | hq
      · subst hq
        exact ⟨((n :: p.1 : List String), p.2),
          by simp only [listFiles, List.mem_append]; exact Or.inl (List.mem_map_of_mem _ hp),
          rfl⟩
      · obtain ⟨p1, hp1, hs⟩ := ih1 q2 hq2 p (by simpa using hp)
        exact ⟨((n :: p1.1 : List String), p1.2),
          by simp only [listFiles, List.mem_append]; exact Or.inl (List.mem_map_of_mem _ hp1),
          hs⟩
      · obtain ⟨p1, hp1, hs⟩ := ih2 q hq p hp
        exact ⟨p1, by simp [listFiles, hp1], hs⟩


/-- Directories of a swept tree, by path: exactly the original
directories beneath which some file at or after the cutoff survives. -/
theorem listDirs_sweepList (c : ℕ) (es : List Entry) :
    (listDirs (sweepList c es)).map Prod.fst =
      ((listDirs es).filter
        (fun q => (listFiles q.2).any (fun p => !decide (p.2 < c)))).map Prod.fst := by
  have hcompd : ∀ n : String, ((fun q : List String × List Entry =>
      (listFiles q.2).any (fun p => !decide (p.2 < c))) ∘
      (fun q : List String × List Entry => ((n :: q.1 : List String), q.2))) =
      (fun q : List String × List Entry =>
        (listFiles q.2).any (fun p => !decide (p.2 < c))) := fun n => rfl
  induction es using sweepList.induct c with
  | case1 => simp [sweepList, listDirs]
  | case2 n m es ih =>
      by_cases hm : m < c <;> simp [sweepList, listDirs, hm, ih]
  | case3 n cs es ih1 ih2 =>
      by_cases he : (sweepList c cs).isEmpty
      · have hnil : sweepList c cs = [] := List.isEmpty_iff.mp he
        have hallold : ∀ p ∈ listFiles cs, p.2 < c := (sweepList_eq_nil_iff c cs).mp hnil
        have hpred1 : ((listFiles cs).any (fun p => !decide (p.2 < c))) = false := by
          simp only [List.any_eq_false]
          intro p hp
          simpa using hallold p hp
        have hpred2 : ∀ q ∈ listDirs cs,
            ((listFiles q.2).any (fun p => !decide (p.2 < c))) = false := by
          intro q hq
          simp only [List.any_eq_false]
          intro p hp
          obtain ⟨p1, hp1, hs⟩ := mtime_of_subdir_file cs q hq p hp
          simpa using hs ▸ hallold p1 hp1
        have hfilcs : (listDirs cs).filter
            (fun q => (listFiles q.2).any (fun p => !decide (p.2 < c))) = [] :=
          List.filter_eq_nil_iff.mpr (fun q hq => by simp [hpred2 q hq])
        simp [sweepList, he, listDirs, List.filter_append, List.filter_map,
          hcompd n, hfilcs, hpred1, ih2]
      · have hne : sweepList c cs ≠ [] := by
          intro hcon
          rw [hcon] at he
          exact he rfl
        have hex : ∃ p ∈ listFiles cs, ¬ p.2 < c := by
          by_contra hcon
          push_neg at hcon
          exact hne ((sweepList_eq_nil_iff c cs).mpr hcon)
        have hpred1 : ((listFiles cs).any (fun p => !decide (p.2 < c))) = true := by
          obtain ⟨p, hp, hnp⟩ := hex
          exact List.any_eq_true.mpr ⟨p, hp, by simpa using hnp⟩
        simp only [sweepList, he, Bool.false_eq_true, if_false, List.cons_append,
          List.nil_append, listDirs, List.filter_cons, hpred1, if_true,
          List.filter_append, List.filter_map, hcompd n, List.map_cons,
          List.map_append, List.map_map, ih2]
        refine congrArg (fun l => ((n : String) :: ([] : List String)) :: l) ?_
        refine congrArg (fun l => l ++ ((listDirs es).filter
          (fun q => (listFiles q.2).any (fun p => !decide (p.2 < c)))).map Prod.fst) ?_
        have hl : (Prod.fst ∘ fun q : List String × List Entry =>
            ((n :: q.1 : List String), q.2)) =
            ((fun l : List String => n :: l) ∘ Prod.fst) := rfl
        rw [hl, ← List.map_map, ← List.map_map, ih1]

/-- One sweep is idempotent: sweeping a swept tree deletes nothing. -/
theorem sweepList_idem (c : ℕ) (es : List Entry) :
    sweepList c (sweepList c es) = sweepList c es := by
  induction es using sweepList.induct c with
  | case1 => simp [sweepList]
  | case2 n m es ih =>
      by_cases hm : m < c <;> simp [sweepList, hm, ih]
  | case3 n cs es ih1 ih2 =>
      by_cases he : (sweepList c cs).isEmpty
      · simp [sweepList, he, ih2]
      · simp [sweepList, he, ih1, ih2]


mutual

/-- Every deletion of the walk rooted at `path` targets a strict
extension of `path`. -/
theorem mem_walkOps (c : ℕ) (path : List String) (es : List Entry) (op : FsOp)
    (h : op ∈ walkOps c path es) :
    ∃ rest, rest ≠ [] ∧ op.path = path ++ rest := by
  rw [walkOps] at h
  rcases List.mem_append.mp h with h1 | h2
  · rcases List.mem_append.mp h1 with hs | hr
    · exact mem_walkSubdirs c path es op hs
    · obtain ⟨e, _, hee⟩ := List.mem_filterMap.mp hr
      cases e with
      | file nm m =>
          dsimp only at hee
          by_cases hm : m < c
          · rw [if_pos hm] at hee
            cases hee
            exact ⟨[nm], by simp, by simp [FsOp.path]⟩
          · rw [if_neg hm] at hee
            exact Option.noConfusion hee
      | dir nm cs =>
          dsimp only at hee
          exact Option.noConfusion hee
  · obtain ⟨e, _, hee⟩ := List.mem_filterMap.mp h2
    cases e with
    | file nm m =>
        dsimp only at hee
        exact Option.noConfusion hee
    | dir nm cs =>
        dsimp only at hee
        by_cases hs : (sweepList c cs).isEmpty
        · rw [if_pos hs] at hee
          cases hee
          exact ⟨[nm], by simp, by simp [FsOp.path]⟩
        · rw [if_neg hs] at hee
          exact Option.noConfusion hee

/-- Every deletion inside the subdirectory walks targets a strict
extension of `path`. -/
theorem mem_walkSubdirs (c : ℕ) (path : List String) (es : List Entry) (op : FsOp)
    (h : op ∈ walkSubdirs c path es) :
    ∃ rest, rest ≠ [] ∧ op.path = path ++ rest := by
  match es with
  | [] =>
      rw [walkSubdirs] at h
      exact absurd h (List.not_mem_nil op)
  | Entry.file nm m :: es2 =>
      rw [walkSubdirs] at h
      exact mem_walkSubdirs c path es2 op h
  | Entry.dir nm cs :: es2 =>
      rw [walkSubdirs] at h
      rcases List.mem_append.mp h with h1 | h2
      · obtain ⟨rest, hne, hp⟩ := mem_walkOps c (path ++ [nm]) cs op h1
        exact ⟨[nm] ++ rest, by simp, by rw [hp, List.append_assoc]⟩
      · exact mem_walkSubdirs c path es2 op h2

end


/-- C8, counterexample.  The claim says a sweep deletes exactly the
old files plus the directories left empty *by those deletions*; but on
a tree holding a single already-empty directory and no files at all,
the sweep deletes no file — so no directory is left empty by a file
deletion — yet it still removes the pre-existing empty directory. -/
theorem C8_counterexample :
    listFiles [Entry.dir "d" []] = [] ∧
    clean_old_downloads 100 [Entry.dir "d" []] = [FsOp.rmdir ["downloads", "d"]] ∧
    sweepList 100 [Entry.dir "d" []] = [] := by
  refine ⟨by simp [listFiles], ?_, by simp [sweepList]⟩
  simp [clean_old_downloads, walkOps, walkSubdirs, removeOps, rmdirOps, sweepList,
    DOWNLOAD_DIR]

/-- C8, amended.  For every file tree under the output root and cutoff
time, one sweep keeps exactly the files whose last-modified time is at
or after the cutoff (in order, paths untouched), and keeps exactly the
directories beneath which some such file survives — equivalently, it
deletes every directory that is empty after the file deletions, whether
emptied by them, emptied by removal of its emptied subdirectories
(bottom-up in the same pass), or already empty beforehand; and the
sweep is idempotent: a second run with the same cutoff deletes nothing
further. -/
theorem C8_sweep_amended (c : ℕ) (es : List Entry) :
    listFiles (sweepList c es) = (listFiles es).filter (fun p => !decide (p.2 < c)) ∧
    (listDirs (sweepList c es)).map Prod.fst =
      ((listDirs es).filter
        (fun q => (listFiles q.2).any (fun p => !decide (p.2 < c)))).map Prod.fst ∧
    sweepList c (sweepList c es) = sweepList c es :=
  ⟨listFiles_sweepList c es, listDirs_sweepList c es, sweepList_idem c es⟩

/-- C10.  The retention sweep never deletes the output root itself:
every deletion it performs — file removal or directory removal —
targets a path strictly beneath the walk root. -/
theorem C10_root_never_deleted (c : ℕ) (tree : List Entry) :
    FsOp.rmdir [DOWNLOAD_DIR] ∉ clean_old_downloads c tree ∧
    ∀ op ∈ clean_old_downloads c tree,
      ∃ rest, rest ≠ [] ∧ op.path = [DOWNLOAD_DIR] ++ rest := by
  constructor
  · intro hmem
    obtain ⟨rest, hne, hp⟩ := mem_walkOps c [DOWNLOAD_DIR] tree _ hmem
    simp only [FsOp.path] at hp
    exact hne (List.self_eq_append_right.mp hp)
  · intro op hop
    exact mem_walkOps c [DOWNLOAD_DIR] tree op hop

/-- C10 witness: on a tree whose sweep does remove a directory, the
removed path strictly extends the root, and the root path itself is
not removed. -/
theorem C10_root_never_deleted_witness :
    (∃ rest, rest ≠ [] ∧ (FsOp.rmdir ["downloads", "d"]).path = ["downloads"] ++ rest) ∧
    FsOp.rmdir ["downloads"] ∉ clean_old_downloads 100 [Entry.dir "d" []] := by
  constructor
  · exact (C10_root_never_deleted 100 [Entry.dir "d" []]).2
      (FsOp.rmdir ["downloads", "d"])
      (by simp [clean_old_downloads, walkOps, walkSubdirs, removeOps, rmdirOps,
        sweepList, DOWNLOAD_DIR])
  · exact (C10_root_never_deleted 100 [Entry.dir "d" []]).1

end Dow
